import Mathlib

set_option maxHeartbeats 1000000

/- Verification of the larray-project releaser tool.

   Python strings are modelled as List Char.  The regular-expression digit
   class from the source patterns is modelled as decimal ASCII digits.  Files
   are modelled as lists of lines (each line a List Char, newline characters
   included, matching readlines semantics). -/

namespace Releaser

/-- Whitespace characters stripped by the str.strip method of Python
(ASCII subset). -/
def py_is_space (c : Char) : Bool :=
  (c == ' ') || (c == '\t') || (c == '\n') || (c == '\r') || (c == '\x0b') || (c == '\x0c')

/-- Boolean test that the first list occurs at the head of the second list. -/
def starts_with : List Char → List Char → Bool
  | [], _ => true
  | _ :: _, [] => false
  | p :: ps, c :: cs => (p == c) && starts_with ps cs

/-- Model of the Python membership test pat in s for strings: pat occurs as a
contiguous substring of s. -/
def contains_sub (pat s : List Char) : Bool :=
  (List.range (s.length + 1)).any (fun i => starts_with pat (s.drop i))

/-- Model of re.search of the pattern tag followed by one or more digits,
testing a match starting at position i of s. -/
def tag_match_at (tag s : List Char) (i : Nat) : Bool :=
  starts_with tag (s.drop i) &&
    (match s.drop (i + tag.length) with
     | c :: _ => c.isDigit
     | [] => false)

/-- Model of re.search for the pattern tag followed by one or more digits:
position of the leftmost match, if any. -/
def re_search_pos (tag s : List Char) : Option Nat :=
  (List.range (s.length + 1)).find? (fun i => tag_match_at tag s i)

/-- Pre-release tags in the priority order used by pretag_pos in
src/releaser/utils.py: rc, c, beta, b, alpha, a. -/
def pretags_priority : List (List Char) :=
  [['r', 'c'], ['c'], ['b', 'e', 't', 'a'], ['b'], ['a', 'l', 'p', 'h', 'a'], ['a']]

/-- Loop of pretag_pos: return the leftmost match position of the first tag
in the priority list that matches anywhere. -/
def find_pretag : List (List Char) → List Char → Option Nat
  | [], _ => none
  | tag :: rest, s =>
    match re_search_pos tag s with
    | some pos => some pos
    | none => find_pretag rest s

/-- Model of pretag_pos from src/releaser/utils.py. -/
def pretag_pos (release_name : List Char) : Option Nat :=
  find_pretag pretags_priority release_name

/-- Model of strip_pretags from src/releaser/utils.py. -/
def strip_pretags (release_name : List Char) : List Char :=
  match pretag_pos release_name with
  | some pos => release_name.take pos
  | none => release_name

/-- Model of isprerelease from src/releaser/utils.py. -/
def isprerelease (release_name : List Char) : Bool :=
  (pretag_pos release_name).isSome

/-- Any of the six pre-release tag patterns matches at position i of s. -/
def any_pretag_at (s : List Char) (i : Nat) : Bool :=
  pretags_priority.any (fun tag => tag_match_at tag s i)

/-- Model of short from src/releaser/utils.py: drop a trailing ".0". -/
def short (rel_name : List Char) : List Char :=
  if starts_with ['0', '.'] rel_name.reverse then rel_name.take (rel_name.length - 2)
  else rel_name

/-- Model of long_release_name from src/releaser/utils.py.  The Python
function asserts that the name contains exactly one dot when it has fewer
than two; an input with no dot hits a failing assertion, modelled as none. -/
def long_release_name (release_name : List Char) : Option (List Char) :=
  if 2 ≤ release_name.count '.' then some release_name
  else if release_name.count '.' = 1 then
    match pretag_pos release_name with
    | some pos => some (release_name.take pos ++ '.' :: '0' :: release_name.drop pos)
    | none => some (release_name ++ ['.', '0'])
  else none

/-- Model of the comment test used by replace_lines in src/releaser/utils.py:
line.strip().startswith applied to the hash character. -/
def is_comment_line (line : List Char) : Bool :=
  match line.dropWhile py_is_space with
  | '#' :: _ => true
  | _ => false

/-- Per-line body of replace_lines from src/releaser/utils.py: each pair whose
marker occurs in the original line (and the original line is not a comment)
overwrites the stored line, so the last matching pair wins. -/
def replace_line (changes : List (List Char × List Char)) (endl line : List Char) : List Char :=
  changes.foldl
    (fun acc change =>
      if contains_sub change.1 line && !(is_comment_line line) then change.2 ++ endl else acc)
    line

/-- Model of replace_lines from src/releaser/utils.py.  The Python loop
enumerates a copy of the original lines and assigns into the live list, so the
marker tests always see the original line: this is a map over the lines. -/
def replace_lines (lines : List (List Char)) (changes : List (List Char × List Char))
    (endl : List Char) : List (List Char) :=
  lines.map (replace_line changes endl)

/-- Python exception kinds raised by the modelled code paths. -/
inductive PyErr
  | valueNotFound
  | valueUnpack
  | assertFailed
  | typeErr
  | valueErr
  | indexErr
deriving DecidableEq, Repr

/-- Model of str.split on the colon character: "a:b" becomes ["a", "b"],
":" becomes ["", ""], "" becomes [""]. -/
def split_colon : List Char → List (List Char)
  | [] => [[]]
  | c :: rest =>
    if c = ':' then [] :: split_colon rest
    else
      match split_colon rest with
      | [] => [[c]]
      | p :: ps => (c :: p) :: ps

/-- Model of list.index on a list of names: position of the first occurrence,
none when absent (Python raises ValueError then). -/
def list_index : List (List Char) → List Char → Option Nat
  | [], _ => none
  | n :: rest, x => if n = x then some 0 else (list_index rest x).map (fun i => i + 1)

/-- Selector resolution of run_steps (src/releaser/make_release.py, lines
366-375), translated from the source: when the filter contains a colon it is
split and unpacked into a start and a stop name (more than one colon makes the
unpacking fail); an empty start name means index 0, an empty stop name means
the length of the name list, and the stop bound adds one to make the range
inclusive; without a colon the filter names a single step. -/
def resolve_selector (func_names : List (List Char)) (steps_filter : List Char) :
    Except PyErr (Nat × Nat) :=
  if ':' ∈ steps_filter then
    match split_colon steps_filter with
    | [start_name, stop_name] =>
      match (if start_name = [] then some 0 else list_index func_names start_name) with
      | none => .error .valueNotFound
      | some start =>
        match (if stop_name = [] then some func_names.length
               else (list_index func_names stop_name).map (fun i => i + 1)) with
        | none => .error .valueNotFound
        | some stop => .ok (start, stop)
    | _ => .error .valueUnpack
  else
    match list_index func_names steps_filter with
    | some start => .ok (start, start + 1)
    | none => .error .valueNotFound

/-- Start index written from the words of the specification: the index of the
start name in the name list, or 0 when the start name is empty. -/
def start_index_spec (names : List (List Char)) (start_name : List Char) : Except PyErr Nat :=
  if start_name = [] then .ok 0
  else
    match list_index names start_name with
    | some i => .ok i
    | none => .error .valueNotFound

/-- Exclusive stop index written from the words of the specification: the
index of the stop name plus one, or the length of the name list when the stop
name is empty. -/
def stop_index_spec (names : List (List Char)) (stop_name : List Char) : Except PyErr Nat :=
  if stop_name = [] then .ok names.length
  else
    match list_index names stop_name with
    | some i => .ok (i + 1)
    | none => .error .valueNotFound

/-- Range resolution written from the words of the specification. -/
def resolve_range_spec (names : List (List Char)) (start_name stop_name : List Char) :
    Except PyErr (Nat × Nat) :=
  match start_index_spec names start_name with
  | .error e => .error e
  | .ok a =>
    match stop_index_spec names stop_name with
    | .error e => .error e
    | .ok b => .ok (a, b)

/-- Single-step resolution written from the words of the specification: the
index of the named step and that index plus one, an error when absent. -/
def resolve_single_spec (names : List (List Char)) (name : List Char) :
    Except PyErr (Nat × Nat) :=
  match list_index names name with
  | some i => .ok (i, i + 1)
  | none => .error .valueNotFound

/-- Configuration mapping of a run: string keys to values of type V. -/
abbrev Config (V : Type) := List (String × V)

/-- Value returned by a step operation when it is not None: either a mapping
(merged into the configuration) or some non-mapping value (which makes the
isinstance assertion of run_steps fail). -/
inductive PyRes (V : Type)
  | dict (upd : Config V)
  | nonDict

/-- One registered step: a unique name, an operation on the configuration and
a human-readable description. -/
structure Step (V : Type) where
  name : List Char
  op : Config V → Option (PyRes V)
  desc : List Char

/-- Observable events of a run: a start notification, the invocation of an
operation on the live configuration, and a done notification. -/
inductive Event (V : Type)
  | start (desc : List Char)
  | invoke (name : List Char) (config : Config V)
  | done (desc : List Char)

/-- First-match lookup in a configuration mapping. -/
def lookupK {V : Type} (k : String) : Config V → Option V
  | [] => none
  | p :: rest => if p.1 = k then some p.2 else lookupK k rest

/-- Model of dict.update: keys already present keep their place and get the
new value, keys only in the update are appended in order. -/
def dictUpdate {V : Type} (c u : Config V) : Config V :=
  c.map (fun p =>
    match lookupK p.1 u with
    | some v => (p.1, v)
    | none => p)
  ++ u.filter (fun q => (lookupK q.1 c).isNone)

/-- Loop of run_steps (src/releaser/make_release.py, lines 377-387),
translated from the source: print the description when non-empty, invoke the
operation, merge a non-None result (asserting it is a mapping), print done
when the description is non-empty, continue with the next step. -/
def run_steps_loop {V : Type} : List (Step V) → Config V → List (Event V) × Except PyErr (Config V)
  | [], config => ([], .ok config)
  | step :: rest, config =>
    let pre : List (Event V) :=
      (if step.desc ≠ [] then [Event.start step.desc] else []) ++ [Event.invoke step.name config]
    match step.op config with
    | some PyRes.nonDict => (pre, .error .assertFailed)
    | some (PyRes.dict u) =>
      let next := run_steps_loop rest (dictUpdate config u)
      (pre ++ (if step.desc ≠ [] then [Event.done step.desc] else []) ++ next.1, next.2)
    | none =>
      let next := run_steps_loop rest config
      (pre ++ (if step.desc ≠ [] then [Event.done step.desc] else []) ++ next.1, next.2)

/-- Start notification written from the words of the specification: emitted
exactly when the description is non-empty. -/
def notify_start {V : Type} (step : Step V) : List (Event V) :=
  if step.desc = [] then [] else [Event.start step.desc]

/-- Done notification written from the words of the specification: emitted
exactly when the description is non-empty. -/
def notify_done {V : Type} (step : Step V) : List (Event V) :=
  if step.desc = [] then [] else [Event.done step.desc]

/-- Merge written from the words of the specification: a None result leaves
the configuration unchanged, a mapping is merged in, anything else is a type
error. -/
def merge_update {V : Type} (config : Config V) : Option (PyRes V) → Except PyErr (Config V)
  | none => .ok config
  | some (PyRes.dict u) => .ok (dictUpdate config u)
  | some PyRes.nonDict => .error .assertFailed

/-- Runner loop written from the words of the specification: for each step in
order, notify start, invoke the operation on the live configuration, merge the
returned update before the next step, notify done. -/
def run_steps_loop_spec {V : Type} :
    List (Step V) → Config V → List (Event V) × Except PyErr (Config V)
  | [], config => ([], .ok config)
  | step :: rest, config =>
    match merge_update config (step.op config) with
    | .error e => (notify_start step ++ [Event.invoke step.name config], .error e)
    | .ok config2 =>
      let next := run_steps_loop_spec rest config2
      (notify_start step ++ [Event.invoke step.name config] ++ notify_done step ++ next.1, next.2)

/-- Dynamically-typed argument of run_steps: the Python function takes the
list of steps and the filter string positionally, so a caller can pass them
in either order. -/
inductive StepsArg (V : Type)
  | strArg (chars : List Char)
  | listArg (steps : List (Step V))

/-- Model of run_steps (src/releaser/make_release.py, lines 365-387) on
dynamically-typed arguments.  Passing a non-empty string where the step list
is expected makes the name comprehension fail while unpacking single
characters into pairs; the empty string yields an empty name list and the
loop then iterates over an empty slice of the string.  Passing a list where
the filter string is expected makes the colon membership test false and the
subsequent list.index lookup fail, because no name equals that list. -/
def run_steps {V : Type} (config : Config V) (steps_funcs steps_filter : StepsArg V) :
    List (Event V) × Except PyErr (Config V) :=
  match steps_funcs with
  | .strArg (_ :: _) => ([], .error .valueUnpack)
  | .strArg [] =>
    match steps_filter with
    | .listArg _ => ([], .error .valueNotFound)
    | .strArg filt =>
      match resolve_selector [] filt with
      | .error e => ([], .error e)
      | .ok _ => ([], .ok config)
  | .listArg funcs =>
    match steps_filter with
    | .listArg _ => ([], .error .valueNotFound)
    | .strArg filt =>
      match resolve_selector (funcs.map Step.name) filt with
      | .error e => ([], .error e)
      | .ok se => run_steps_loop ((funcs.drop se.1).take (se.2 - se.1)) config

/-- Model of update_feedstock (src/releaser/update_feedstock.py, lines 86-89):
it calls run_steps with the selector string in the steps_funcs position and
the step list in the steps_filter position. -/
def update_feedstock {V : Type} (config : Config V) (steps : List Char)
    (feedstock_steps : List (Step V)) : List (Event V) × Except PyErr (Config V) :=
  run_steps config (.strArg steps) (.listArg feedstock_steps)

/-- Value passed as the conda_build_args argument: either a dict or some
value of another type (the only distinction the isinstance check observes). -/
inductive CondaArgsVal
  | dictVal
  | otherVal
deriving DecidableEq

/-- Truth of the isinstance check on conda_build_args in set_config. -/
def conda_ok : Option CondaArgsVal → Bool
  | none => true
  | some .dictVal => true
  | some .otherVal => false

/-- The literal release name selecting a non-public dev build. -/
def dev_name : List Char := ['d', 'e', 'v']

/-- Configuration dictionary built by set_config in
src/releaser/make_release.py. -/
structure MRConfig where
  branch : List Char
  release_name : List Char
  package_name : List Char
  module_name : List Char
  local_repository : List Char
  src_documentation : Option (List Char)
  tmp_dir : List Char
  build_dir : List Char
  conda_build_args : Option CondaArgsVal
  conda_recipe_path : List Char
  public_release : Bool
deriving DecidableEq

/-- Model of os.path.join for the two-component joins used by set_config,
parametrised by the platform flag sys.platform == win32. -/
def path_join (win32 : Bool) (a b : List Char) : List Char :=
  a ++ (if win32 then ['\\'] else ['/']) ++ b

/-- Model of set_config (src/releaser/make_release.py, lines 330-362): the
conda_build_args type check comes first, then a release name other than dev
is a public release and must contain neither the substring pre nor a dash;
the default temporary directory depends on the platform. -/
def set_config (win32 : Bool) (local_repository package_name module_name release_name branch :
    List Char) (src_documentation : Option (List Char)) (tmp_dir : Option (List Char))
    (conda_build_args : Option CondaArgsVal) : Except PyErr MRConfig :=
  if conda_ok conda_build_args = false then .error .typeErr
  else
    let public_release : Bool := decide (release_name ≠ dev_name)
    if public_release && contains_sub ['p', 'r', 'e'] release_name then .error .valueErr
    else if public_release && release_name.any (fun c => c == '-') then .error .valueErr
    else
      let tmp_dir2 : List Char :=
        match tmp_dir with
        | some t => t
        | none =>
          path_join win32 (if win32 then ['c', ':', '\\', 't', 'm', 'p'] else ['/', 't', 'm', 'p'])
            (module_name ++ ['_', 'r', 'e', 'l', 'e', 'a', 's', 'e'])
      .ok
        { branch := branch
          release_name := release_name
          package_name := package_name
          module_name := module_name
          local_repository := local_repository
          src_documentation := src_documentation
          tmp_dir := tmp_dir2
          build_dir := path_join win32 tmp_dir2 ['b', 'u', 'i', 'l', 'd']
          conda_build_args := conda_build_args
          conda_recipe_path := ['c', 'o', 'n', 'd', 'a', 'r', 'e', 'c', 'i', 'p', 'e', '/']
            ++ package_name
          public_release := public_release }

/-- Status of one invocation of update_changelog. -/
inductive UCStatus
  | skippedNotPublic
  | skippedTitle
  | skippedDate
  | updated
deriving DecidableEq

/-- Expected title line content (before the newline) checked by
update_changelog: the word Version, a space and the shortened release name. -/
def expected_title (release_name : List Char) : List Char :=
  ['V', 'e', 'r', 's', 'i', 'o', 'n', ' '] ++ short release_name

/-- The marker line an unreleased changelog must carry at index 6. -/
def in_development : List Char :=
  ['I', 'n', ' ', 'd', 'e', 'v', 'e', 'l', 'o', 'p', 'm', 'e', 'n', 't', '.', '\n']

/-- Replacement line written at index 6, with the ISO date passed in. -/
def released_line (today : List Char) : List Char :=
  ['R', 'e', 'l', 'e', 'a', 's', 'e', 'd', ' ', 'o', 'n', ' '] ++ today ++ ['.', '\n']

/-- Model of update_changelog (src/releaser/make_release.py, lines 170-193):
nothing happens without source documentation or for a non-public release;
a wrong title line at index 3 or a wrong marker line at index 6 prints a
diagnostic and returns with the file unmodified; otherwise line 6 becomes the
release date line.  Reading a missing line is an index error. -/
def update_changelog (src_documentation : Option (List Char)) (public_release : Bool)
    (release_name today : List Char) (file : List (List Char)) :
    Except PyErr (List (List Char) × UCStatus) :=
  match src_documentation, public_release with
  | none, _ => .ok (file, .skippedNotPublic)
  | some _, false => .ok (file, .skippedNotPublic)
  | some _, true =>
    match file.get? 3 with
    | none => .error .indexErr
    | some title =>
      if title ≠ expected_title release_name ++ ['\n'] then .ok (file, .skippedTitle)
      else
        match file.get? 6 with
        | none => .error .indexErr
        | some release_date =>
          if release_date ≠ in_development then .ok (file, .skippedDate)
          else .ok (file.set 6 (released_line today), .updated)

/-- Outcome of the command-line entry point. -/
inductive MainOutcome
  | usageExitZero
  | indexError
  | nextFlow (args : List String)
  | releaseFlow (args : List String)
deriving DecidableEq

/-- Model of the __main__ block of src/main.py: fewer than three argv entries
print the usage text and exit with status 0; otherwise argv[3] is read
unconditionally, which is an index error when only the two mandatory
arguments are present; the literal next dispatches to add_release after
deleting that entry, anything else dispatches to make_release. -/
def main_entry (argv : List String) : MainOutcome :=
  if argv.length < 3 then .usageExitZero
  else
    match argv.get? 3 with
    | none => .indexError
    | some a =>
      if a = "next" then .nextFlow ((argv.eraseIdx 3).drop 1)
      else .releaseFlow (argv.drop 1)

/-- Inserting the two characters dot and zero at any position adds exactly one
dot to the dot count. -/
lemma count_dot_insert (s : List Char) (p : Nat) :
    (s.take p ++ '.' :: '0' :: s.drop p).count '.' = s.count '.' + 1 := by
  rw [List.count_append]
  have h0 : ('.' :: '0' :: s.drop p).count '.' = (s.drop p).count '.' + 1 := by
    rw [List.count_cons, List.count_cons]
    simp
  rw [h0]
  conv_rhs => rw [← List.take_append_drop p s, List.count_append]
  omega

/-- A release name with at least two dots is returned unchanged. -/
lemma long_release_name_of_two_dots (s : List Char) (h : 2 ≤ s.count '.') :
    long_release_name s = some s := by
  unfold long_release_name
  rw [if_pos h]

/-- Whenever long_release_name succeeds, its result has at least two dots. -/
lemma long_release_name_count (s t : List Char) (h : long_release_name s = some t) :
    2 ≤ t.count '.' := by
  unfold long_release_name at h
  by_cases h2 : 2 ≤ s.count '.'
  · rw [if_pos h2] at h
    injection h with h
    exact h ▸ h2
  · rw [if_neg h2] at h
    by_cases h1 : s.count '.' = 1
    · rw [if_pos h1] at h
      cases hp : pretag_pos s with
      | some p =>
        rw [hp] at h
        injection h with h
        rw [← h, count_dot_insert, h1]
      | none =>
        rw [hp] at h
        injection h with h
        rw [← h, List.count_append, h1]
        have : (['.', '0'] : List Char).count '.' = 1 := by decide
        omega
    · rw [if_neg h1] at h
      exact absurd h (by simp)

/-- Claim C6: long_release_name is idempotent.  An input that makes the
assertion of the Python function fail (no dot at all) is modelled as none and
the bind then yields none on both sides. -/
theorem long_release_name_idem (s : List Char) :
    (long_release_name s).bind long_release_name = long_release_name s := by
  cases hs : long_release_name s with
  | none => rfl
  | some t =>
    have h2 := long_release_name_count s t hs
    exact long_release_name_of_two_dots t h2

/-- A pattern matching a prefix obtained by take also matches the full list. -/
lemma starts_with_take (pat : List Char) :
    ∀ (x : List Char) (n : Nat), starts_with pat (x.take n) = true → starts_with pat x = true := by
  induction pat with
  | nil => intro x n _; rfl
  | cons p ps ih =>
    intro x n h
    cases x with
    | nil => simpa using h
    | cons c cs =>
      cases n with
      | zero => simp [starts_with] at h
      | succ m =>
        rw [List.take_succ_cons] at h
        rw [starts_with, Bool.and_eq_true] at h ⊢
        exact ⟨h.1, ih cs m h.2⟩

/-- A take that produces a cons exposes the head of the underlying list. -/
lemma take_head (y : List Char) (n : Nat) (c : Char) (t : List Char)
    (h : y.take n = c :: t) : ∃ y', y = c :: y' := by
  cases y with
  | nil => simp at h
  | cons d y' =>
    cases n with
    | zero => simp at h
    | succ m =>
      rw [List.take_succ_cons] at h
      exact ⟨y', by rw [(List.cons.injEq .. ▸ h : d = c ∧ _).1]⟩

/-- A tag match inside a take p prefix is a tag match of the full string at a
position strictly below p. -/
lemma tag_match_at_take (tag s : List Char) (p i : Nat)
    (h : tag_match_at tag (s.take p) i = true) :
    tag_match_at tag s i = true ∧ i < p := by
  rw [tag_match_at, Bool.and_eq_true] at h
  obtain ⟨h1, h2⟩ := h
  rw [List.drop_take] at h1 h2
  cases hd : ((s.drop (i + tag.length)).take (p - (i + tag.length))) with
  | nil => rw [hd] at h2; simp at h2
  | cons c rest =>
    rw [hd] at h2
    have hne : p - (i + tag.length) ≠ 0 := by
      intro h0
      rw [h0, List.take_zero] at hd
      exact List.noConfusion hd
    have hlt : i + tag.length < p := by omega
    obtain ⟨y', hy⟩ := take_head _ _ _ _ hd
    refine ⟨?_, by omega⟩
    rw [tag_match_at, Bool.and_eq_true]
    refine ⟨starts_with_take tag _ _ h1, ?_⟩
    rw [hy]
    exact h2

/-- The tag loop finds nothing when no tag matches anywhere. -/
lemma find_pretag_none (tags : List (List Char)) (s : List Char)
    (h : ∀ tag ∈ tags, re_search_pos tag s = none) : find_pretag tags s = none := by
  induction tags with
  | nil => rfl
  | cons t ts ih =>
    rw [find_pretag, h t (List.mem_cons_self t ts)]
    exact ih (fun tag htag => h tag (List.mem_cons_of_mem t htag))

/-- Claim C3 counterexample: on the input c1rc1 the position found first is
that of rc1, stripping leaves c1, which still matches the pattern of the tag
c, so the stripped string is itself reported as a pre-release. -/
theorem strip_pretags_c1rc1_still_prerelease :
    isprerelease (strip_pretags ['c', '1', 'r', 'c', '1']) = true := by decide

/-- Claim C3, amended: isprerelease always agrees with pretag_pos, and the
stripped string carries no pre-release tag whenever the found position is the
leftmost position at which any of the six tag patterns matches (in particular
whenever no other tag occurrence comes earlier); without a found position the
input is returned unchanged and is no pre-release. -/
theorem pretag_functions_agree (s : List Char) :
    isprerelease s = (pretag_pos s).isSome ∧
    (∀ p, pretag_pos s = some p → (∀ j, j < p → any_pretag_at s j = false) →
      isprerelease (strip_pretags s) = false) ∧
    (pretag_pos s = none → isprerelease (strip_pretags s) = false) := by
  refine ⟨rfl, ?_, ?_⟩
  · intro p hp hmin
    have hstrip : strip_pretags s = s.take p := by rw [strip_pretags, hp]
    rw [hstrip, isprerelease, pretag_pos, find_pretag_none]
    · rfl
    · intro tag htag
      rw [re_search_pos, List.find?_eq_none]
      intro i _ hmatch
      obtain ⟨hm, hip⟩ := tag_match_at_take tag s p i (by simpa using hmatch)
      have hfalse := hmin i hip
      have htrue : any_pretag_at s i = true := by
        rw [any_pretag_at, List.any_eq_true]
        exact ⟨tag, htag, hm⟩
      rw [hfalse] at htrue
      exact Bool.noConfusion htrue
  · intro h
    rw [strip_pretags, h, isprerelease, h]
    rfl

/-- Witness for the amended claim C3 at the concrete input 0.8alpha25, whose
found tag position 3 is leftmost. -/
theorem pretag_functions_agree_witness :
    isprerelease (strip_pretags ['0', '.', '8', 'a', 'l', 'p', 'h', 'a', '2', '5']) = false :=
  (pretag_functions_agree ['0', '.', '8', 'a', 'l', 'p', 'h', 'a', '2', '5']).2.1 3 (by decide)
    (by decide)

/-- Splitting a colon-free string yields that string alone. -/
lemma split_colon_no_colon (s : List Char) (h : ':' ∉ s) : split_colon s = [s] := by
  induction s with
  | nil => rfl
  | cons c cs ih =>
    have hc : ¬ c = ':' := by
      rintro rfl
      exact h (List.mem_cons_self _ _)
    have hcs : ':' ∉ cs := fun hm => h (List.mem_cons_of_mem c hm)
    rw [split_colon, if_neg hc, ih hcs]

/-- Splitting around the first colon peels off the colon-free part before
it. -/
lemma split_colon_append (a b : List Char) (ha : ':' ∉ a) :
    split_colon (a ++ ':' :: b) = a :: split_colon b := by
  induction a with
  | nil => simp [split_colon]
  | cons c a' ih =>
    have hc : ¬ c = ':' := by
      rintro rfl
      exact ha (List.mem_cons_self _ _)
    have ha' : ':' ∉ a' := fun hm => ha (List.mem_cons_of_mem c hm)
    rw [List.cons_append, split_colon, if_neg hc, ih ha']

/-- Claim C1: the selector resolution of run_steps agrees with the
specification.  A selector built from a colon-free start name and a colon-free
stop name around one colon resolves to the spec range (index or 0 for the
start, index plus one or the list length for the stop, an error for an absent
non-empty name); a colon-free selector resolves to a single step. -/
theorem resolve_selector_matches_spec (names : List (List Char)) (a b single : List Char)
    (ha : ':' ∉ a) (hb : ':' ∉ b) (hs : ':' ∉ single) :
    resolve_selector names (a ++ ':' :: b) = resolve_range_spec names a b ∧
    resolve_selector names single = resolve_single_spec names single := by
  constructor
  · have hmem : ':' ∈ a ++ ':' :: b := List.mem_append_right a (List.mem_cons_self _ _)
    rw [resolve_selector, if_pos hmem, split_colon_append a b ha, split_colon_no_colon b hb,
      resolve_range_spec, start_index_spec, stop_index_spec]
    by_cases hae : a = [] <;> by_cases hbe : b = [] <;>
      cases hia : list_index names a <;> cases hib : list_index names b <;>
        simp [hae, hbe, hia, hib]
  · rw [resolve_selector, if_neg hs, resolve_single_spec]

/-- Witness for claim C1 on a concrete two-step registry: the range from the
first step to the end, and the single second step. -/
theorem resolve_selector_matches_spec_witness :
    resolve_selector [['x'], ['y']] (['x'] ++ ':' :: []) = resolve_range_spec [['x'], ['y']] ['x'] [] ∧
    resolve_selector [['x'], ['y']] ['y'] = resolve_single_spec [['x'], ['y']] ['y'] :=
  resolve_selector_matches_spec [['x'], ['y']] ['x'] [] ['y'] (by decide) (by decide) (by decide)

/-- Lookup distributes over append, preferring the first list. -/
lemma lookupK_append {V : Type} (k : String) (l1 l2 : Config V) :
    lookupK k (l1 ++ l2) = (lookupK k l1).orElse (fun _ => lookupK k l2) := by
  induction l1 with
  | nil => rfl
  | cons p rest ih =>
    simp only [List.cons_append, lookupK]
    by_cases hp : p.1 = k
    · rw [if_pos hp, if_pos hp]
      rfl
    · rw [if_neg hp, if_neg hp]
      exact ih

/-- Lookup in the overwrite part of dictUpdate: keys of the base keep their
place, and a key present in both takes the updated value. -/
lemma lookupK_map_update {V : Type} (k : String) (u c : Config V) :
    lookupK k (c.map (fun p =>
      match lookupK p.1 u with
      | some v => (p.1, v)
      | none => p)) =
    match lookupK k c with
    | none => none
    | some v => some ((lookupK k u).getD v) := by
  induction c with
  | nil => rfl
  | cons p rest ih =>
    simp only [List.map_cons, lookupK]
    by_cases hp : p.1 = k
    · subst hp
      cases hu : lookupK p.1 u with
      | some v => simp [hu]
      | none => simp [hu]
    · have hhead : (match lookupK p.1 u with
          | some v => (p.1, v)
          | none => p).1 = p.1 := by
        cases lookupK p.1 u <;> rfl
      simp only [hhead, if_neg hp]
      exact ih

/-- Filtering with a predicate that keeps every pair whose key is k does not
change the lookup of k. -/
lemma lookupK_filter_true {V : Type} (k : String) (P : String × V → Bool) (u : Config V)
    (h : ∀ q : String × V, q.1 = k → P q = true) :
    lookupK k (u.filter P) = lookupK k u := by
  induction u with
  | nil => rfl
  | cons q rest ih =>
    rw [List.filter_cons]
    by_cases hq : q.1 = k
    · rw [h q hq]
      simp only [if_true]
      rw [lookupK, if_pos hq, lookupK, if_pos hq]
    · cases hP : P q
      · simp only [Bool.false_eq_true, if_false]
        rw [ih, lookupK, if_neg hq]
      · simp only [if_true]
        rw [lookupK, if_neg hq, lookupK, if_neg hq]
        exact ih

/-- Filtering with a predicate that drops every pair whose key is k makes the
lookup of k fail. -/
lemma lookupK_filter_false {V : Type} (k : String) (P : String × V → Bool) (u : Config V)
    (h : ∀ q : String × V, q.1 = k → P q = false) :
    lookupK k (u.filter P) = none := by
  induction u with
  | nil => rfl
  | cons q rest ih =>
    rw [List.filter_cons]
    by_cases hq : q.1 = k
    · rw [h q hq]
      simp only [Bool.false_eq_true, if_false]
      exact ih
    · cases hP : P q
      · simp only [Bool.false_eq_true, if_false]
        exact ih
      · simp only [if_true]
        rw [lookupK, if_neg hq]
        exact ih

/-- Merging a configuration update behaves like dict.update: the updated value
wins for keys of the update, other keys keep the base value. -/
lemma lookupK_dictUpdate {V : Type} (c u : Config V) (k : String) :
    lookupK k (dictUpdate c u) = (lookupK k u).orElse (fun _ => lookupK k c) := by
  rw [dictUpdate, lookupK_append, lookupK_map_update]
  cases hc : lookupK k c with
  | none =>
    rw [lookupK_filter_true k _ u (fun q hq => by rw [hq, hc]; rfl)]
    cases lookupK k u <;> rfl
  | some v =>
    rw [lookupK_filter_false k _ u (fun q hq => by rw [hq, hc]; rfl)]
    cases lookupK k u <;> rfl

/-- The runner loop translated from the source equals the loop written from
the words of the specification. -/
lemma run_steps_loop_eq_spec {V : Type} (steps : List (Step V)) (config : Config V) :
    run_steps_loop steps config = run_steps_loop_spec steps config := by
  induction steps generalizing config with
  | nil => rfl
  | cons step rest ih =>
    rw [run_steps_loop, run_steps_loop_spec]
    cases hop : step.op config with
    | none =>
      simp only [merge_update, notify_start, notify_done, ih]
      by_cases hd : step.desc = [] <;> simp [hd]
    | some res =>
      cases res with
      | dict u =>
        simp only [merge_update, notify_start, notify_done, ih]
        by_cases hd : step.desc = [] <;> simp [hd]
      | nonDict =>
        simp only [merge_update, notify_start, notify_done]
        by_cases hd : step.desc = [] <;> simp [hd]

/-- Claim C2: the runner executes a resolved sub-range strictly in order with
start and done notifications exactly for non-empty descriptions, each
operation invoked on the live configuration and its non-None mapping result
merged before the next step (a non-mapping result is a type error), as stated
by the specification-level loop; and the merge overwrites existing keys and
adds new ones. -/
theorem run_steps_loop_matches_spec {V : Type} :
    (∀ (steps : List (Step V)) (config : Config V),
      run_steps_loop steps config = run_steps_loop_spec steps config) ∧
    (∀ (c u : Config V) (k : String),
      lookupK k (dictUpdate c u) = (lookupK k u).orElse (fun _ => lookupK k c)) :=
  ⟨run_steps_loop_eq_spec, lookupK_dictUpdate⟩

/-- Claim C9: whatever the configuration, the selector string and the step
list, update_feedstock fails before executing any step, because run_steps
receives the selector string in the position of the step list: event trace
empty and an error outcome. -/
theorem update_feedstock_always_errors {V : Type} (config : Config V) (steps : List Char)
    (feedstock_steps : List (Step V)) :
    (update_feedstock config steps feedstock_steps).1 = [] ∧
    ∃ e, (update_feedstock config steps feedstock_steps).2 = Except.error e := by
  cases steps with
  | nil => exact ⟨rfl, ⟨PyErr.valueNotFound, rfl⟩⟩
  | cons c cs => exact ⟨rfl, ⟨PyErr.valueUnpack, rfl⟩⟩

/-- Claim C7: with a well-typed conda_build_args argument, building the
configuration for a release name other than dev raises a validation error
exactly when the name contains the substring pre or a dash, while the name
dev always yields a configuration marked as non-public. -/
theorem set_config_release_name_validation (win32 : Bool)
    (lr pn mn rn br : List Char) (sd : Option (List Char)) (td : Option (List Char))
    (ca : Option CondaArgsVal) (hca : conda_ok ca = true) :
    (rn ≠ dev_name →
      ((∃ e, set_config win32 lr pn mn rn br sd td ca = .error e) ↔
        (contains_sub ['p', 'r', 'e'] rn = true ∨ rn.any (fun c => c == '-') = true))) ∧
    (rn = dev_name →
      ∃ cfg, set_config win32 lr pn mn rn br sd td ca = .ok cfg ∧
        cfg.public_release = false) := by
  have hca' : ¬ conda_ok ca = false := by
    rw [hca]
    exact Bool.noConfusion
  constructor
  · intro hdev
    have hpub : decide (rn ≠ dev_name) = true := by simp [hdev]
    rw [set_config.eq_def, if_neg hca']
    simp only [hpub, Bool.true_and]
    by_cases h1 : contains_sub ['p', 'r', 'e'] rn = true
    · simp [h1]
    · rw [Bool.not_eq_true] at h1
      by_cases h2 : rn.any (fun c => c == '-') = true
      · simp [h1, h2]
      · rw [Bool.not_eq_true] at h2
        simp [h1, h2]
  · intro hdev
    have hpub : decide (rn ≠ dev_name) = false := by simp [hdev]
    rw [set_config.eq_def, if_neg hca']
    simp only [hpub, Bool.false_and, Bool.false_eq_true, if_false]
    exact ⟨_, rfl, rfl⟩

/-- Witness for claim C7: the name pre is rejected as a public release name,
while dev builds a non-public configuration. -/
theorem set_config_release_name_validation_witness :
    ((['p', 'r', 'e'] ≠ dev_name →
      ((∃ e, set_config false [] [] [] ['p', 'r', 'e'] [] none none none = .error e) ↔
        (contains_sub ['p', 'r', 'e'] ['p', 'r', 'e'] = true ∨
          (['p', 'r', 'e'] : List Char).any (fun c => c == '-') = true))) ∧
    (['p', 'r', 'e'] = dev_name →
      ∃ cfg, set_config false [] [] [] ['p', 'r', 'e'] [] none none none = .ok cfg ∧
        cfg.public_release = false)) :=
  set_config_release_name_validation false [] [] [] ['p', 'r', 'e'] [] none none none (by decide)

/-- Claim C5: when the title line at index 3 or the marker line at index 6
does not match what update_changelog expects, the operation returns without
raising and the file is returned unmodified. -/
theorem update_changelog_soft_skip (src_doc release_name today : List Char)
    (file : List (List Char)) (title : List Char) (h3 : file.get? 3 = some title) :
    (title ≠ expected_title release_name ++ ['\n'] →
      update_changelog (some src_doc) true release_name today file =
        .ok (file, .skippedTitle)) ∧
    (∀ release_date, title = expected_title release_name ++ ['\n'] →
      file.get? 6 = some release_date → release_date ≠ in_development →
      update_changelog (some src_doc) true release_name today file =
        .ok (file, .skippedDate)) := by
  constructor
  · intro ht
    rw [update_changelog, h3]
    simp only [if_pos ht]
  · intro rd ht h6 hrd
    have hnn : ¬ title ≠ expected_title release_name ++ ['\n'] := fun hne => hne ht
    rw [update_changelog, h3]
    simp only [h6, if_neg hnn, if_pos hrd]

/-- Witness for claim C5 at two concrete seven-line files: one with a wrong
title line, one already released. -/
theorem update_changelog_soft_skip_witness :
    update_changelog (some []) true ['0', '.', '8'] [] [[], [], [], ['X'], [], [], []] =
      .ok ([[], [], [], ['X'], [], [], []], .skippedTitle) ∧
    update_changelog (some []) true ['0', '.', '8'] []
        [[], [], [], expected_title ['0', '.', '8'] ++ ['\n'], [], [], ['X']] =
      .ok ([[], [], [], expected_title ['0', '.', '8'] ++ ['\n'], [], [], ['X']],
        .skippedDate) :=
  ⟨(update_changelog_soft_skip [] ['0', '.', '8'] [] [[], [], [], ['X'], [], [], []] ['X']
      rfl).1 (by decide),
   (update_changelog_soft_skip [] ['0', '.', '8'] []
      [[], [], [], expected_title ['0', '.', '8'] ++ ['\n'], [], [], ['X']]
      (expected_title ['0', '.', '8'] ++ ['\n']) rfl).2 ['X'] rfl rfl (by decide)⟩

/-- Claim C4: with exactly the two mandatory arguments after the program name
the entry point reads argv at index 3 unconditionally and hits an index
error instead of running the main flow with the default selector, while with
fewer than the two mandatory arguments it prints the usage text and exits
with status 0. -/
theorem main_entry_mandatory_args :
    main_entry ["main.py", "larray", "0.34"] = MainOutcome.indexError ∧
    main_entry ["main.py", "larray"] = MainOutcome.usageExitZero :=
  ⟨rfl, rfl⟩

/-- Folding a keep-or-overwrite function selects the last list element that
satisfies the predicate. -/
lemma foldl_last_filter {α β : Type} (f : β → α) (P : β → Bool) :
    ∀ (l : List β) (a : α),
      l.foldl (fun acc x => if P x then f x else acc) a =
        match (l.filter P).getLast? with
        | some x => f x
        | none => a := by
  intro l
  induction l with
  | nil => intro a; rfl
  | cons x xs ih =>
    intro a
    rw [List.foldl_cons, List.filter_cons]
    cases hP : P x with
    | false =>
      simp only [Bool.false_eq_true, if_false]
      exact ih a
    | true =>
      simp only [if_true]
      rw [ih (f x)]
      cases hxs : xs.filter P with
      | nil => rfl
      | cons z zs =>
        rw [List.getLast?_cons_cons]
        cases hgl : (z :: zs).getLast? with
        | some w => rfl
        | none =>
          rw [List.getLast?_eq_none_iff] at hgl
          exact absurd hgl (List.cons_ne_nil z zs)

/-- Claim C8: a line is replaced exactly when it contains a marker and its
stripped form does not start with a hash, and when several markers match the
same original line the replacement of the last matching pair in the list is
written; the file-level operation treats every line independently. -/
theorem replace_line_last_marker_wins (changes : List (List Char × List Char))
    (endl line : List Char) :
    (replace_line changes endl line =
      if is_comment_line line then line
      else
        match (changes.filter (fun change => contains_sub change.1 line)).getLast? with
        | some change => change.2 ++ endl
        | none => line) ∧
    (∀ (lines : List (List Char)) (i : Nat),
      (replace_lines lines changes endl).get? i =
        (lines.get? i).map (replace_line changes endl)) := by
  constructor
  · rw [replace_line,
      foldl_last_filter (fun change : List Char × List Char => change.2 ++ endl)
        (fun change => contains_sub change.1 line && !(is_comment_line line)) changes line]
    by_cases hc : is_comment_line line = true
    · rw [if_pos hc]
      have hnil : changes.filter
          (fun change => contains_sub change.1 line && !(is_comment_line line)) = [] := by
        rw [List.filter_eq_nil_iff]
        intro x _
        simp [hc]
      rw [hnil]
      rfl
    · rw [Bool.not_eq_true] at hc
      rw [if_neg (by simp [hc])]
      have hsame : changes.filter
          (fun change => contains_sub change.1 line && !(is_comment_line line)) =
          changes.filter (fun change => contains_sub change.1 line) := by
        apply List.filter_congr
        intro x _
        rw [hc]
        simp
      rw [hsame]
      cases (changes.filter (fun change => contains_sub change.1 line)).getLast? <;> rfl
  · intro lines i
    rw [replace_lines, List.get?_map]

/-- Claim C10: the substitution writes back exactly as many lines as it read,
and a line that matches no marker, or whose stripped form starts with a hash,
is written back unchanged. -/
theorem replace_lines_frame (changes : List (List Char × List Char)) (endl : List Char)
    (lines : List (List Char)) :
    (replace_lines lines changes endl).length = lines.length ∧
    (∀ (i : Nat) (line : List Char), lines.get? i = some line →
      ((∀ change ∈ changes, contains_sub change.1 line = false) ∨
        is_comment_line line = true) →
      (replace_lines lines changes endl).get? i = some line) := by
  constructor
  · rw [replace_lines, List.length_map]
  · intro i line hi hcase
    rw [replace_lines, List.get?_map, hi]
    have key : replace_line changes endl line = line := by
      rw [replace_line,
        foldl_last_filter (fun change : List Char × List Char => change.2 ++ endl)
          (fun change => contains_sub change.1 line && !(is_comment_line line)) changes line]
      have hnil : changes.filter
          (fun change => contains_sub change.1 line && !(is_comment_line line)) = [] := by
        rw [List.filter_eq_nil_iff]
        intro x hx
        cases hcase with
        | inl hnone => simp [hnone x hx]
        | inr hcomm => simp [hcomm]
      rw [hnil]
      rfl
    simp [key]

/-- Witness for claim C10: a commented-out marker line and a marker-free line
both survive unchanged, and the line count is preserved. -/
theorem replace_lines_frame_witness :
    (replace_lines [['#', 'a'], ['b']] [(['a'], ['Z'])] ['\n']).length = 2 ∧
    (replace_lines [['#', 'a'], ['b']] [(['a'], ['Z'])] ['\n']).get? 0 = some ['#', 'a'] ∧
    (replace_lines [['#', 'a'], ['b']] [(['a'], ['Z'])] ['\n']).get? 1 = some ['b'] :=
  ⟨(replace_lines_frame [(['a'], ['Z'])] ['\n'] [['#', 'a'], ['b']]).1,
   (replace_lines_frame [(['a'], ['Z'])] ['\n'] [['#', 'a'], ['b']]).2 0 ['#', 'a'] rfl
     (Or.inr (by decide)),
   (replace_lines_frame [(['a'], ['Z'])] ['\n'] [['#', 'a'], ['b']]).2 1 ['b'] rfl
     (Or.inl (by decide))⟩

end Releaser
